import Mathlib

/-!
Verification of the dataset-iteration and evaluation-loop contract of the
20-Newsgroups estimator tutorial notebooks.

The notebooks load a numpy archive (`newsgroups = np.load(...)`) holding the
arrays `train_data`, `train_target`, `test_data`, `test_target`, `labels`,
wrap them in `dataset_input_fn` (an input function built on
`tf.estimator.inputs.numpy_input_fn` with `batch_size = 100`,
`num_epochs = 1 if dataset == "test" else None`,
`shuffle = dataset == "train"`), and feed the result to canned estimators
(`train`, `evaluate`, `predict`).

Embedding choices: numpy arrays become Lean lists (feature rows are
`List Int`: the claims under study never compute with the feature values,
they only move them around, so an exact integer scalar type is adequate);
the string-keyed archive becomes an explicit lookup over the five stored
keys; the assertion failure of `dataset_input_fn` becomes the `error`
branch of an `Except`.  The batching / shuffling / epoch semantics of
`numpy_input_fn` and the estimator loops are external framework code, not
part of this repository; every definition whose doc comment starts with
`Modelled from the spec:` is reconstructed from the words of the
specification for that external behaviour.  Shuffling randomness is
modelled by quantifying over arbitrary per-pass index orders that are
permutations of `range n`.
-/

namespace NG

/-- In-memory contents of the `newsgroup.npz` archive: the five arrays the
notebooks read.  Feature matrices are lists of rows, target vectors are
lists of class indices, `labels` is the stored label-name array. -/
structure ArrayBundle where
  train_data : List (List Int)
  train_target : List Nat
  test_data : List (List Int)
  test_target : List Nat
  labels : List String

/-- Shapes an array stored in the archive can have. -/
inductive NpzArray where
  | matrix : List (List Int) → NpzArray
  | vector : List Nat → NpzArray
  | labelArray : List String → NpzArray

/-- String-keyed lookup into the archive, as `newsgroups[key]` in the
notebooks: the five stored keys succeed, any other key is a missing-key
error (`none`). -/
def npzLookup (b : ArrayBundle) (key : String) : Option NpzArray :=
  if key = "train_data" then some (NpzArray.matrix b.train_data)
  else if key = "train_target" then some (NpzArray.vector b.train_target)
  else if key = "test_data" then some (NpzArray.matrix b.test_data)
  else if key = "test_target" then some (NpzArray.vector b.test_target)
  else if key = "labels" then some (NpzArray.labelArray b.labels)
  else none

/-- Notebook constant: `batch_size = 100`. -/
def batch_size : Nat := 100

/-- Notebook definition: `num_classes = newsgroups["labels"].shape[0]`,
i.e. the length of the stored label array. -/
def num_classes (b : ArrayBundle) : Nat := b.labels.length

/-- Number of distinct class indices actually occurring in the target
vectors (what the spec says `num_classes` is not derived from). -/
def distinctTargetCount (b : ArrayBundle) : Nat :=
  (b.train_target ++ b.test_target).dedup.length

/-- Record of the arguments `dataset_input_fn` passes to
`tf.estimator.inputs.numpy_input_fn`. -/
structure InputFnConfig where
  x : List (List Int)
  y : List Nat
  batch_size : Nat
  num_epochs : Option Nat
  shuffle : Bool

/-- Fixed message of the assertion in the notebooks:
`assert dataset in ("train", "test"), "The selected dataset should be ..."`. -/
def assertMsg : String := "The selected dataset should be `train` or `test`"

/-- Embedding of the notebook function `dataset_input_fn(dataset)`: assert
that the split name is `train` or `test` (an invalid name raises the fixed
`AssertionError` message before anything else happens), then look up the
keys `dataset + "_data"` and `dataset + "_target"` in the archive and
build the `numpy_input_fn` argument record with `batch_size = 100`,
`num_epochs = 1` only for `test`, and `shuffle` only for `train`.
The wildcard match arm is the missing-key error branch of the lookup. -/
def dataset_input_fn (newsgroups : ArrayBundle) (dataset : String) :
    Except String InputFnConfig :=
  if dataset == "train" || dataset == "test" then
    match npzLookup newsgroups (dataset ++ "_data"),
          npzLookup newsgroups (dataset ++ "_target") with
    | some (NpzArray.matrix xs), some (NpzArray.vector ys) =>
        Except.ok
          { x := xs
            y := ys
            batch_size := batch_size
            num_epochs := if dataset == "test" then some 1 else none
            shuffle := dataset == "train" }
    | _, _ => Except.error ("KeyError: " ++ dataset)
  else
    Except.error assertMsg

/-- Sample sequence an input-function configuration iterates over: feature
rows paired with their aligned targets. -/
def cfgSamples (cfg : InputFnConfig) : List (List Int × Nat) :=
  cfg.x.zip cfg.y

/-- Modelled from the spec: one shuffled pass presents the rows reordered
by an index list `ord` (a permutation of `range rows.length`). -/
def passSamples (rows : List α) (ord : List Nat) : List α :=
  ord.filterMap (fun i => rows[i]?)

/-- Modelled from the spec: the pass numbered `p` of the sample stream —
the rows reordered by the pass order numbered `p` when `shuffle` is set,
the rows in stored order otherwise. -/
def streamPass (cfg : InputFnConfig) (orders : Nat → List Nat) (p : Nat) :
    List (List Int × Nat) :=
  if cfg.shuffle then passSamples (cfgSamples cfg) (orders p) else cfgSamples cfg

/-- Modelled from the spec: the single-epoch sample sequence
(`num_epochs = 1`): one pass, reordered only when `shuffle` is set. -/
def epochSamples (cfg : InputFnConfig) (ord : List Nat) : List (List Int × Nat) :=
  streamPass cfg (fun _ => ord) 0

/-- Modelled from the spec: chunk a sample sequence into consecutive
batches of `k + 1` samples (fuel-bounded recursion; fuel at least the
list length makes the recursion total). -/
def chunksAux (k : Nat) : Nat → List α → List (List α)
  | _, [] => []
  | 0, _ :: _ => []
  | fuel + 1, a :: rest =>
      (a :: rest).take (k + 1) :: chunksAux k fuel ((a :: rest).drop (k + 1))

/-- Modelled from the spec: split a sample sequence into consecutive
batches of `bs` samples; the final batch holds whatever remains. -/
def toBatches (bs : Nat) (xs : List α) : List (List α) :=
  chunksAux (bs - 1) xs.length xs

/-- Modelled from the spec: the batch sequence of the single-epoch (test)
iterator. -/
def testBatches (cfg : InputFnConfig) (ord : List Nat) :
    List (List (List Int × Nat)) :=
  toBatches cfg.batch_size (epochSamples cfg ord)

/-- Batches produced by a possibly-failed iterator construction: a failed
`dataset_input_fn` call produces no batches at all. -/
def producedBatches (r : Except String InputFnConfig) (ord : List Nat) :
    List (List (List Int × Nat)) :=
  match r with
  | Except.error _ => []
  | Except.ok cfg => testBatches cfg ord

/-- Validity of a stream of pass orders: every pass order is a permutation
of the row indices. -/
def validOrders (n : Nat) (orders : Nat → List Nat) : Prop :=
  ∀ p, (orders p).Perm (List.range n)

/-- Modelled from the spec: the sample numbered `k` of the endless
(`num_epochs = None`) sample stream — position `k % n` of pass `k / n`. -/
def trainSample? (cfg : InputFnConfig) (orders : Nat → List Nat) (k : Nat) :
    Option (List Int × Nat) :=
  let n := (cfgSamples cfg).length
  (streamPass cfg orders (k / n))[k % n]?

/-- Modelled from the spec: the first `m` samples the endless stream
yields. -/
def takeSamples (cfg : InputFnConfig) (orders : Nat → List Nat) (m : Nat) :
    List (List Int × Nat) :=
  (List.range m).filterMap (trainSample? cfg orders)

/-- Modelled from the spec: the training batch numbered `k` — the next
`batch_size` samples of the endless stream, or `none` (iterator
exhausted) if they are not all available. -/
def trainBatch? (cfg : InputFnConfig) (orders : Nat → List Nat) (k : Nat) :
    Option (List (List Int × Nat)) :=
  let b := (List.range cfg.batch_size).filterMap
      (fun j => trainSample? cfg orders (k * cfg.batch_size + j))
  if b.length = cfg.batch_size then some b else none

/-- Modelled from the spec: the training loop pulls batches `start`,
`start + 1`, ... from the iterator until `steps` batches were consumed,
stopping early only if the iterator exhausts. -/
def trainConsume (next : Nat → Option β) : Nat → Nat → List β
  | _, 0 => []
  | k, steps + 1 =>
      match next k with
      | none => []
      | some b => b :: trainConsume next (k + 1) steps

/-- Number of samples in a consumed sequence whose predicted class equals
the true class, for a model given by its prediction function `f`. -/
def countCorrect (f : List Int → Nat) (xs : List (List Int × Nat)) : Nat :=
  (xs.filter (fun s => f s.1 == s.2)).length

/-- Modelled from the spec: evaluation accuracy — the batch-size-weighted
average over all consumed test batches of the per-batch correct fraction,
i.e. total correct predictions over total sample count. -/
def evalAccuracy (f : List Int → Nat) (cfg : InputFnConfig) (ord : List Nat) :
    Rat :=
  let bl := testBatches cfg ord
  ((bl.map (countCorrect f)).sum : Rat) / ((bl.map List.length).sum : Rat)

/-- Modelled from the spec: evaluation average loss — the
batch-size-weighted average of per-batch summed losses over the total
sample count, for an arbitrary per-sample loss function. -/
def evalAvgLoss (lossFn : List Int → Nat → Rat) (cfg : InputFnConfig)
    (ord : List Nat) : Rat :=
  let bl := testBatches cfg ord
  (bl.map (fun b => (b.map (fun s => lossFn s.1 s.2)).sum)).sum
    / ((bl.map List.length).sum : Rat)

/-- Modelled from the spec: one `evaluate` call — build the test iterator
with `dataset_input_fn("test")` and compute (accuracy, average loss) over
its single epoch, for a fixed trained model given by its prediction and
loss functions; `ord` is the random pass order of the run (unused when
the iterator does not shuffle). -/
def evaluateRun (f : List Int → Nat) (lossFn : List Int → Nat → Rat)
    (b : ArrayBundle) (ord : List Nat) : Except String (Rat × Rat) :=
  (dataset_input_fn b "test").map
    (fun cfg => (evalAccuracy f cfg ord, evalAvgLoss lossFn cfg ord))

/-- Modelled from the spec: `predict` maps the predicted class of the
trained model over the test iterator samples in the order they are
yielded. -/
def predictClasses (f : List Int → Nat) (cfg : InputFnConfig)
    (ord : List Nat) : List Nat :=
  (epochSamples cfg ord).map (fun s => f s.1)

/-- Check that `pat` occurs at the head of the second list. -/
def leadsWith : List Char → List Char → Bool
  | [], _ => true
  | _ :: _, [] => false
  | a :: as, b :: bs => a == b && leadsWith as bs

/-- Check that `pat` occurs somewhere in the second list. -/
def containsSub (pat : List Char) : List Char → Bool
  | [] => pat.isEmpty
  | c :: rest => leadsWith pat (c :: rest) || containsSub pat rest

/-- Whether the string `hay` mentions the string `needle` as a contiguous
substring (how an error message would identify an offending value). -/
def strMentions (hay needle : String) : Bool :=
  containsSub needle.data hay.data

/-- Small concrete archive used to instantiate hypotheses at witnesses. -/
def exBundle : ArrayBundle :=
  { train_data := [[0, 0], [0, 1], [1, 0], [1, 1]]
    train_target := [0, 1, 1, 0]
    test_data := [[0, 0], [1, 1], [0, 1]]
    test_target := [0, 1, 1]
    labels := ["a", "b"] }

/-- Configuration `dataset_input_fn exBundle "test"` evaluates to. -/
def cfgTestEx : InputFnConfig :=
  { x := exBundle.test_data
    y := exBundle.test_target
    batch_size := 100
    num_epochs := some 1
    shuffle := false }

/-- Configuration `dataset_input_fn exBundle "train"` evaluates to. -/
def cfgTrainEx : InputFnConfig :=
  { x := exBundle.train_data
    y := exBundle.train_target
    batch_size := 100
    num_epochs := none
    shuffle := true }

/-- Concrete valid pass-order stream for the four training rows of
`exBundle`: every pass uses the same nontrivial permutation of `range 4`. -/
def ordersEx : Nat → List Nat := fun _ => [1, 0, 3, 2]

/-- Chunking the empty list yields no batches, whatever the fuel. -/
theorem chunksAux_nil (k fuel : Nat) : chunksAux k fuel ([] : List α) = [] := by
  cases fuel <;> rfl

/-- Concatenating the chunks gives back the original list (fuel at least
the list length). -/
theorem chunksAux_flatten (k : Nat) :
    ∀ (fuel : Nat) (xs : List α), xs.length ≤ fuel →
      (chunksAux k fuel xs).flatten = xs := by
  intro fuel
  induction fuel with
  | zero =>
    intro xs h
    cases xs with
    | nil => rfl
    | cons a rest => simp at h
  | succ fuel ih =>
    intro xs h
    cases xs with
    | nil => rfl
    | cons a rest =>
      have hlen : ((a :: rest).drop (k + 1)).length ≤ fuel := by
        simp only [List.length_drop, List.length_cons]
        simp only [List.length_cons] at h
        omega
      rw [chunksAux, List.flatten_cons, ih _ hlen, List.take_append_drop]

/-- Concatenating the batches gives back the sample sequence. -/
theorem toBatches_flatten (bs : Nat) (xs : List α) :
    (toBatches bs xs).flatten = xs :=
  chunksAux_flatten _ _ _ (Nat.le_refl _)

/-- Looking every index of `range n` up in a list of length at least `n`
collects the first `n` elements in order. -/
theorem range_filterMap_take (l : List α) :
    ∀ n, n ≤ l.length → (List.range n).filterMap (fun i => l[i]?) = l.take n := by
  intro n
  induction n with
  | zero => intro _; rfl
  | succ n ih =>
    intro h
    rw [List.range_succ, List.filterMap_append, ih (Nat.le_of_succ_le h),
      List.take_succ]
    simp [List.getElem?_eq_getElem (Nat.lt_of_succ_le h)]

/-- Looking every index of a list up in itself returns the list. -/
theorem range_filterMap_self (l : List α) :
    (List.range l.length).filterMap (fun i => l[i]?) = l := by
  rw [range_filterMap_take l l.length (Nat.le_refl _), List.take_length]

/-- When every lookup succeeds, `filterMap` keeps the full length. -/
theorem filterMap_length_of_isSome (f : α → Option β) :
    ∀ l : List α, (∀ a ∈ l, (f a).isSome) → (l.filterMap f).length = l.length := by
  intro l
  induction l with
  | nil => intro _; rfl
  | cons a t ih =>
    intro h
    obtain ⟨b, hb⟩ := Option.isSome_iff_exists.mp (h a (List.mem_cons_self a t))
    rw [List.filterMap_cons, hb, List.length_cons,
      ih (fun x hx => h x (List.mem_cons_of_mem a hx)), List.length_cons]

/-- A pass driven by a permutation of the row indices is a permutation of
the rows: the shuffle drops nothing and duplicates nothing. -/
theorem passSamples_perm (rows : List α) (ord : List Nat)
    (h : ord.Perm (List.range rows.length)) :
    (passSamples rows ord).Perm rows := by
  have h2 := h.filterMap (fun i => rows[i]?)
  rw [range_filterMap_self] at h2
  exact h2

/-- Every pass of the sample stream, shuffled or not, is a permutation of
the stored rows. -/
theorem streamPass_perm (cfg : InputFnConfig) (orders : Nat → List Nat)
    (ho : validOrders (cfgSamples cfg).length orders) (p : Nat) :
    (streamPass cfg orders p).Perm (cfgSamples cfg) := by
  rw [streamPass]
  by_cases hs : cfg.shuffle = true
  · simpa [hs] using passSamples_perm (cfgSamples cfg) (orders p) (ho p)
  · simp [hs]

/-- Every pass of the sample stream has exactly one sample per row. -/
theorem streamPass_length (cfg : InputFnConfig) (orders : Nat → List Nat)
    (ho : validOrders (cfgSamples cfg).length orders) (p : Nat) :
    (streamPass cfg orders p).length = (cfgSamples cfg).length :=
  (streamPass_perm cfg orders ho p).length_eq

/-- Over a nonempty sample set the endless stream always has a sample at
every position. -/
theorem trainSample?_isSome (cfg : InputFnConfig) (orders : Nat → List Nat)
    (ho : validOrders (cfgSamples cfg).length orders)
    (hn : 0 < (cfgSamples cfg).length) (k : Nat) :
    (trainSample? cfg orders k).isSome := by
  have hm : k % (cfgSamples cfg).length <
      (streamPass cfg orders (k / (cfgSamples cfg).length)).length := by
    rw [streamPass_length cfg orders ho]
    exact Nat.mod_lt _ hn
  simp [trainSample?, List.getElem?_eq_getElem hm]

/-- Requesting `m` samples from the endless stream always yields exactly
`m` samples. -/
theorem takeSamples_length (cfg : InputFnConfig) (orders : Nat → List Nat)
    (ho : validOrders (cfgSamples cfg).length orders)
    (hn : 0 < (cfgSamples cfg).length) (m : Nat) :
    (takeSamples cfg orders m).length = m := by
  rw [takeSamples,
    filterMap_length_of_isSome _ _
      (fun a _ => trainSample?_isSome cfg orders ho hn a),
    List.length_range]

/-- The segment of the endless stream covering pass `p` is exactly that
pass. -/
theorem stream_segment (cfg : InputFnConfig) (orders : Nat → List Nat)
    (ho : validOrders (cfgSamples cfg).length orders)
    (hn : 0 < (cfgSamples cfg).length) (p : Nat) :
    (List.range (cfgSamples cfg).length).filterMap
      (fun j => trainSample? cfg orders (p * (cfgSamples cfg).length + j)) =
      streamPass cfg orders p := by
  have hcongr : ∀ j ∈ List.range (cfgSamples cfg).length,
      trainSample? cfg orders (p * (cfgSamples cfg).length + j) =
        (streamPass cfg orders p)[j]? := by
    intro j hj
    have hjn : j < (cfgSamples cfg).length := List.mem_range.mp hj
    have hdiv : (p * (cfgSamples cfg).length + j) / (cfgSamples cfg).length = p := by
      rw [Nat.add_comm, Nat.mul_comm, Nat.add_mul_div_left _ _ hn,
        Nat.div_eq_of_lt hjn, Nat.zero_add]
    have hmod : (p * (cfgSamples cfg).length + j) % (cfgSamples cfg).length = j := by
      rw [Nat.add_comm, Nat.mul_comm, Nat.add_mul_mod_self_left,
        Nat.mod_eq_of_lt hjn]
    simp only [trainSample?, hdiv, hmod]
  rw [List.filterMap_congr hcongr]
  have hl := streamPass_length cfg orders ho p
  calc (List.range (cfgSamples cfg).length).filterMap
        (fun j => (streamPass cfg orders p)[j]?)
      = (List.range (streamPass cfg orders p).length).filterMap
        (fun j => (streamPass cfg orders p)[j]?) := by rw [hl]
    _ = streamPass cfg orders p := range_filterMap_self _

/-- Over a nonempty sample set the training iterator always has a next
batch: it never exhausts. -/
theorem trainBatch?_isSome (cfg : InputFnConfig) (orders : Nat → List Nat)
    (ho : validOrders (cfgSamples cfg).length orders)
    (hn : 0 < (cfgSamples cfg).length) (k : Nat) :
    (trainBatch? cfg orders k).isSome := by
  have hlen : ((List.range cfg.batch_size).filterMap
      (fun j => trainSample? cfg orders (k * cfg.batch_size + j))).length =
      cfg.batch_size := by
    rw [filterMap_length_of_isSome _ _
      (fun a _ => trainSample?_isSome cfg orders ho hn _), List.length_range]
  simp [trainBatch?, hlen]

/-- A consumer of a never-exhausting iterator gets exactly the requested
number of batches. -/
theorem trainConsume_length (next : Nat → Option β)
    (h : ∀ k, (next k).isSome) :
    ∀ (steps start : Nat), (trainConsume next start steps).length = steps := by
  intro steps
  induction steps with
  | zero => intro start; rfl
  | succ steps ih =>
    intro start
    obtain ⟨b, hb⟩ := Option.isSome_iff_exists.mp (h start)
    rw [trainConsume, hb, List.length_cons, ih]

/-- Correct-prediction counts aggregated per batch sum to the global
correct-prediction count of the concatenated batches. -/
theorem countCorrect_flatten (f : List Int → Nat) :
    ∀ L : List (List (List Int × Nat)),
      countCorrect f L.flatten = (L.map (countCorrect f)).sum := by
  intro L
  induction L with
  | nil => rfl
  | cons b t ih =>
    simp only [List.flatten_cons, countCorrect, List.filter_append,
      List.length_append, List.map_cons, List.sum_cons]
    simp only [countCorrect] at ih
    rw [ih]

/-- Every chunk is nonempty and no chunk exceeds the chunk size. -/
theorem chunksAux_batch_bounds (k : Nat) :
    ∀ (fuel : Nat) (xs : List α), ∀ b ∈ chunksAux k fuel xs,
      0 < b.length ∧ b.length ≤ k + 1 := by
  intro fuel
  induction fuel with
  | zero =>
    intro xs b hb
    cases xs with
    | nil => simp [chunksAux] at hb
    | cons a rest => simp [chunksAux] at hb
  | succ fuel ih =>
    intro xs b hb
    cases xs with
    | nil => simp [chunksAux] at hb
    | cons a rest =>
      rw [chunksAux] at hb
      rcases List.mem_cons.mp hb with h | h
      · subst h
        constructor
        · simp only [List.length_take, List.length_cons]
          omega
        · simp only [List.length_take, List.length_cons]
          omega
      · exact ih _ b h

/-- Every chunk except possibly the last one is exactly full. -/
theorem chunksAux_full_batches (k : Nat) :
    ∀ (fuel : Nat) (xs : List α) (i : Nat) (b : List α),
      i + 1 < (chunksAux k fuel xs).length →
      (chunksAux k fuel xs)[i]? = some b → b.length = k + 1 := by
  intro fuel
  induction fuel with
  | zero =>
    intro xs i b hi
    cases xs with
    | nil => simp [chunksAux] at hi
    | cons a rest => simp [chunksAux] at hi
  | succ fuel ih =>
    intro xs i b hi hb
    cases xs with
    | nil => simp [chunksAux] at hi
    | cons a rest =>
      rw [chunksAux] at hi hb
      cases i with
      | zero =>
        have hC : chunksAux k fuel ((a :: rest).drop (k + 1)) ≠ [] := by
          intro hnil
          rw [hnil] at hi
          simp at hi
        have hdrop : (a :: rest).drop (k + 1) ≠ [] := by
          intro hnil
          exact hC (hnil ▸ chunksAux_nil k fuel)
        have hlong : k + 1 < (a :: rest).length := by
          by_contra hle
          exact hdrop (List.drop_eq_nil_of_le (Nat.le_of_not_lt hle))
        simp only [List.getElem?_cons_zero, Option.some.injEq] at hb
        subst hb
        simp only [List.length_take]
        omega
      | succ i =>
        simp only [List.getElem?_cons_succ] at hb
        simp only [List.length_cons] at hi
        exact ih _ i b (Nat.lt_of_succ_lt_succ hi) hb

/-- Evaluating `dataset_input_fn` on the split `test`. -/
theorem dataset_input_fn_test_eq (b : ArrayBundle) :
    dataset_input_fn b "test" =
      Except.ok
        { x := b.test_data, y := b.test_target, batch_size := 100,
          num_epochs := some 1, shuffle := false } := rfl

/-- Evaluating `dataset_input_fn` on the split `train`. -/
theorem dataset_input_fn_train_eq (b : ArrayBundle) :
    dataset_input_fn b "train" =
      Except.ok
        { x := b.train_data, y := b.train_target, batch_size := 100,
          num_epochs := none, shuffle := true } := rfl

/-- Claim C1 (counterexample): the claim says the error raised on an
invalid split name carries a message identifying the invalid value.  In
the code the assertion message is one fixed string: two different invalid
split names produce the identical message, and the message does not
mention the invalid value `validation` at all. -/
theorem c1_counterexample :
    dataset_input_fn exBundle "validation" = Except.error assertMsg ∧
    dataset_input_fn exBundle "some_other_split" = Except.error assertMsg ∧
    strMentions assertMsg "validation" = false :=
  ⟨rfl, rfl, by decide⟩

/-- Claim C1 (amended): for every split value outside
`train` / `test`, constructing the iterator fails fast with the fixed
assertion message (which names the two valid split values, not the
invalid one) and produces no batches. -/
theorem c1_invalid_split_fails_fast (b : ArrayBundle) (s : String)
    (h1 : s ≠ "train") (h2 : s ≠ "test") (ord : List Nat) :
    dataset_input_fn b s = Except.error assertMsg ∧
    producedBatches (dataset_input_fn b s) ord = [] := by
  have hcond : (s == "train" || s == "test") = false := by
    simp [h1, h2]
  have herr : dataset_input_fn b s = Except.error assertMsg := by
    rw [dataset_input_fn, hcond]
    rfl
  exact ⟨herr, by rw [herr]; rfl⟩

/-- Claim C1 (witness): the amended theorem applied to the concrete
invalid split `validation`. -/
theorem c1_witness :
    ("validation" : String) ≠ "train" ∧
    dataset_input_fn exBundle "validation" = Except.error assertMsg :=
  ⟨by decide,
    (c1_invalid_split_fails_fast exBundle "validation" (by decide) (by decide)
      []).1⟩

/-- Claim C2: for the split `test` the iterator performs exactly one full
pass: the concatenation of all its batches is precisely
`test_data.zip test_target` — every stored row exactly once, in stored
order, for any candidate shuffle order — its total sample count is the
`test_data` row count, and the constructed configuration carries
`num_epochs = 1` and no shuffling. -/
theorem c2_test_single_pass (b : ArrayBundle) (cfg : InputFnConfig)
    (h : dataset_input_fn b "test" = Except.ok cfg)
    (hlen : b.test_data.length = b.test_target.length) (ord : List Nat) :
    (testBatches cfg ord).flatten = b.test_data.zip b.test_target ∧
    ((testBatches cfg ord).flatten).length = b.test_data.length ∧
    cfg.num_epochs = some 1 ∧ cfg.shuffle = false := by
  rw [dataset_input_fn_test_eq] at h
  injection h with h'
  subst h'
  refine ⟨?_, ?_, rfl, rfl⟩
  · rw [testBatches, toBatches_flatten]
    rfl
  · rw [testBatches, toBatches_flatten]
    show (epochSamples _ ord).length = _
    simp [epochSamples, streamPass, cfgSamples, List.length_zip, hlen]

/-- Claim C2 (witness): the theorem applied to the concrete bundle
`exBundle`. -/
theorem c2_witness :
    (testBatches cfgTestEx [2, 1, 0]).flatten =
      exBundle.test_data.zip exBundle.test_target :=
  (c2_test_single_pass exBundle cfgTestEx rfl (by decide) [2, 1, 0]).1

/-- The concrete pass-order stream `ordersEx` is valid for the four
training rows of `exBundle`. -/
theorem ordersEx_valid : validOrders (cfgSamples cfgTrainEx).length ordersEx := by
  intro p
  show ([1, 0, 3, 2] : List Nat).Perm (List.range 4)
  decide

/-- Claim C3: for the split `train` the iterator is infinite — requesting
`steps * batch_size` samples yields exactly that many samples for every
`steps` — and for every pass `p` of the stream (any per-pass permutation
playing the role of the fresh random order of that pass) the segment of
the stream covering that pass is a permutation of the training rows:
shuffling permutes but never drops or duplicates a row within a pass. -/
theorem c3_train_infinite_perm (b : ArrayBundle) (cfg : InputFnConfig)
    (h : dataset_input_fn b "train" = Except.ok cfg)
    (orders : Nat → List Nat)
    (ho : validOrders (cfgSamples cfg).length orders)
    (hn : 0 < (cfgSamples cfg).length) :
    cfgSamples cfg = b.train_data.zip b.train_target ∧
    (∀ steps : Nat,
      (takeSamples cfg orders (steps * batch_size)).length = steps * batch_size) ∧
    (∀ p : Nat, ((List.range (cfgSamples cfg).length).filterMap
        (fun j => trainSample? cfg orders (p * (cfgSamples cfg).length + j))).Perm
        (b.train_data.zip b.train_target)) := by
  rw [dataset_input_fn_train_eq] at h
  injection h with h'
  subst h'
  refine ⟨rfl, fun steps => takeSamples_length _ _ ho hn _, fun p => ?_⟩
  rw [stream_segment _ _ ho hn p]
  exact streamPass_perm _ _ ho p

/-- Claim C3 (witness): the theorem applied to the concrete bundle
`exBundle` with the concrete pass-order stream `ordersEx`. -/
theorem c3_witness :
    (takeSamples cfgTrainEx ordersEx (2 * batch_size)).length =
      2 * batch_size :=
  (c3_train_infinite_perm exBundle cfgTrainEx rfl ordersEx
    ordersEx_valid (by decide)).2.1 2

/-- Claim C4: the accuracy computed by the evaluation pass — the
batch-size-weighted aggregation over all test batches — equals exactly
the number of test samples whose predicted class equals the true class
divided by the number of test samples, for any model prediction function
and any candidate shuffle order. -/
theorem c4_eval_accuracy_exact (f : List Int → Nat) (b : ArrayBundle)
    (cfg : InputFnConfig) (h : dataset_input_fn b "test" = Except.ok cfg)
    (hlen : b.test_data.length = b.test_target.length) (ord : List Nat) :
    evalAccuracy f cfg ord =
      (countCorrect f (b.test_data.zip b.test_target) : Rat)
        / (b.test_data.length : Rat) := by
  rw [dataset_input_fn_test_eq] at h
  injection h with h'
  subst h'
  have hflat : (testBatches
      { x := b.test_data, y := b.test_target, batch_size := 100,
        num_epochs := some 1, shuffle := false } ord).flatten =
      b.test_data.zip b.test_target := by
    rw [testBatches, toBatches_flatten]
    rfl
  have h1 : ((testBatches
      { x := b.test_data, y := b.test_target, batch_size := 100,
        num_epochs := some 1, shuffle := false } ord).map (countCorrect f)).sum =
      countCorrect f (b.test_data.zip b.test_target) := by
    rw [← countCorrect_flatten, hflat]
  have h2 : ((testBatches
      { x := b.test_data, y := b.test_target, batch_size := 100,
        num_epochs := some 1, shuffle := false } ord).map List.length).sum =
      b.test_data.length := by
    rw [← List.length_flatten, hflat]
    simp [List.length_zip, hlen]
  simp only [evalAccuracy]
  rw [h1, h2]

/-- Claim C4 (witness): the theorem applied to the concrete bundle
`exBundle` and the constant-zero predictor. -/
theorem c4_witness :
    evalAccuracy (fun _ => 0) cfgTestEx [] =
      (countCorrect (fun _ => 0)
        (exBundle.test_data.zip exBundle.test_target) : Rat)
        / (exBundle.test_data.length : Rat) :=
  c4_eval_accuracy_exact (fun _ => 0) exBundle cfgTestEx rfl (by decide) []

/-- Claim C5: the output of `predict` on the test split has one predicted
class per test row — its length is the `test_data` row count, it is
exactly the model mapped over the test rows in stored order, and zipping
it with `test_target` pairs each prediction with the true label of the
same row. -/
theorem c5_predict_pairing (f : List Int → Nat) (b : ArrayBundle)
    (cfg : InputFnConfig) (h : dataset_input_fn b "test" = Except.ok cfg)
    (hlen : b.test_data.length = b.test_target.length) (ord : List Nat) :
    (predictClasses f cfg ord).length = b.test_data.length ∧
    predictClasses f cfg ord = b.test_data.map f ∧
    (predictClasses f cfg ord).zip b.test_target =
      (b.test_data.zip b.test_target).map (fun s => (f s.1, s.2)) := by
  rw [dataset_input_fn_test_eq] at h
  injection h with h'
  subst h'
  have hmap : predictClasses f
      { x := b.test_data, y := b.test_target, batch_size := 100,
        num_epochs := some 1, shuffle := false } ord = b.test_data.map f := by
    show (b.test_data.zip b.test_target).map (fun s => f s.1) = b.test_data.map f
    rw [show (fun s : List Int × Nat => f s.1) = f ∘ Prod.fst from rfl,
      ← List.map_map, List.map_fst_zip _ _ (Nat.le_of_eq hlen)]
  refine ⟨by rw [hmap, List.length_map], hmap, ?_⟩
  rw [hmap, List.zip_map_left]
  exact List.map_congr_left (fun s _ => by cases s; rfl)

/-- Claim C5 (witness): the theorem applied to the concrete bundle
`exBundle` and the row-length predictor. -/
theorem c5_witness :
    predictClasses (fun r => r.length) cfgTestEx [] =
      exBundle.test_data.map (fun r => r.length) :=
  (c5_predict_pairing (fun r => r.length) exBundle cfgTestEx rfl
    (by decide) []).2.1

/-- Claim C6: for every steps value, the training loop consumes exactly
`steps` batches from the training iterator and terminates after them:
the iterator was built with `num_epochs = None` and, over a nonempty
training set, never exhausts. -/
theorem c6_train_steps (b : ArrayBundle) (cfg : InputFnConfig)
    (h : dataset_input_fn b "train" = Except.ok cfg)
    (orders : Nat → List Nat)
    (ho : validOrders (cfgSamples cfg).length orders)
    (hn : 0 < (cfgSamples cfg).length) (steps : Nat) :
    cfg.num_epochs = none ∧
    (trainConsume (trainBatch? cfg orders) 0 steps).length = steps := by
  rw [dataset_input_fn_train_eq] at h
  injection h with h'
  subst h'
  exact ⟨rfl, trainConsume_length _
    (fun k => trainBatch?_isSome _ orders ho hn k) steps 0⟩

/-- Claim C6 (witness): the theorem applied to the concrete bundle
`exBundle` with three requested steps. -/
theorem c6_witness :
    (trainConsume (trainBatch? cfgTrainEx ordersEx) 0 3).length = 3 :=
  (c6_train_steps exBundle cfgTrainEx rfl ordersEx ordersEx_valid
    (by decide) 3).2

/-- Claim C7: evaluation is deterministic — for a fixed trained model
(prediction and loss functions) on a fixed bundle, two `evaluate` runs
with arbitrary different candidate shuffle orders return identical
accuracy and loss, because the test iterator never shuffles. -/
theorem c7_evaluate_deterministic (f : List Int → Nat)
    (lossFn : List Int → Nat → Rat) (b : ArrayBundle) (ord1 ord2 : List Nat) :
    evaluateRun f lossFn b ord1 = evaluateRun f lossFn b ord2 := rfl

/-- Claim C8: the batch size constant is 100, every batch of a pass is
nonempty and no longer than the batch size, and every batch except
possibly the last one has exactly the batch size (so only the final batch
of a pass may be shorter, when the sample count is not a multiple). -/
theorem c8_batch_shape (xs : List (List Int × Nat)) (bs : Nat) (hbs : 0 < bs) :
    batch_size = 100 ∧
    (∀ b ∈ toBatches bs xs, 0 < b.length ∧ b.length ≤ bs) ∧
    (∀ (i : Nat) (batch : List (List Int × Nat)),
      i + 1 < (toBatches bs xs).length → (toBatches bs xs)[i]? = some batch →
      batch.length = bs) := by
  refine ⟨rfl, ?_, ?_⟩
  · intro bt hb
    have hres := chunksAux_batch_bounds (bs - 1) xs.length xs bt hb
    omega
  · intro i batch hi hb
    have hres := chunksAux_full_batches (bs - 1) xs.length xs i batch hi hb
    omega

/-- Claim C8 (witness): the theorem applied to three concrete samples and
batch size two (two batches, the last one shorter). -/
theorem c8_witness : 0 < 2 ∧ batch_size = 100 :=
  ⟨by decide, (c8_batch_shape [([0], 0), ([1], 1), ([2], 0)] 2 (by decide)).1⟩

/-- Claim C9: the configured class count is the length of the stored
`labels` array of the bundle — not the number of distinct values in the
target vectors: the two agree exactly when the stored array happens to
have the right length, and a bundle exists where they differ as well as
one where they coincide. -/
theorem c9_num_classes_from_labels :
    (∀ b : ArrayBundle, num_classes b = b.labels.length) ∧
    (∀ b : ArrayBundle,
      (num_classes b = distinctTargetCount b ↔
        b.labels.length = distinctTargetCount b)) ∧
    (∃ b : ArrayBundle, num_classes b ≠ distinctTargetCount b) ∧
    (∃ b : ArrayBundle, num_classes b = distinctTargetCount b) := by
  refine ⟨fun _ => rfl, fun _ => Iff.rfl,
    ⟨⟨[], [0], [], [], ["a", "b"]⟩, by decide⟩,
    ⟨⟨[], [0, 1], [], [], ["a", "b"]⟩, by decide⟩⟩

/-- Claim C10: under the precondition that the split value passed the
membership assertion, the two bundle keys `dataset_input_fn` constructs
are always present in the archive, and the missing-key error branch is
unreachable: the call always returns a configuration. -/
theorem c10_keys_present (b : ArrayBundle) (split : String)
    (h : split = "train" ∨ split = "test") :
    (npzLookup b (split ++ "_data")).isSome = true ∧
    (npzLookup b (split ++ "_target")).isSome = true ∧
    ∃ cfg, dataset_input_fn b split = Except.ok cfg := by
  rcases h with h | h <;> subst h
  · exact ⟨rfl, rfl, ⟨_, rfl⟩⟩
  · exact ⟨rfl, rfl, ⟨_, rfl⟩⟩

/-- Claim C10 (witness): the theorem applied at the split `train` on the
concrete bundle. -/
theorem c10_witness :
    (npzLookup exBundle ("train" ++ "_data")).isSome = true :=
  (c10_keys_present exBundle "train" (Or.inl rfl)).1

end NG
